import Mathlib

/-!
Verification of the LBRY blockchain transaction codec and block-index query
facade (`lbry/blockchain/transaction.py`, `lbry/blockchain/database.py`).

Bytes are modelled as `List Nat` with each entry below 256; machine integers
are `Nat` with explicit bounds where overflow matters.  Fallible code returns
`Option` / `Except`.
-/

namespace Lbry

/-! ### Byte-stream codec

Modelled from the spec: `BCDataStream` (bcd_data_stream.py) is part of this
repository but its file is not under src/; these definitions follow the
spec's description (section 4.1) of the little-endian integer codec, the
Bitcoin compact-size varint with thresholds 0xFD / 0xFFFF / 0xFFFFFFFF, and
length-prefixed byte strings.  A read that exceeds the input length fails
(`none`, the Malformed error kind). -/

/-- Little-endian encoding of `n` into `k` bytes (low byte first). -/
def encodeLE : Nat → Nat → List Nat
  | 0, _ => []
  | k + 1, n => n % 256 :: encodeLE k (n / 256)

/-- Little-endian decoding of a byte list (low byte first). -/
def decodeLE (bs : List Nat) : Nat :=
  bs.foldr (fun x acc => x + 256 * acc) 0

def write_uint8 (n : Nat) : List Nat := encodeLE 1 n

def write_uint16 (n : Nat) : List Nat := encodeLE 2 n

def write_uint32 (n : Nat) : List Nat := encodeLE 4 n

def write_uint64 (n : Nat) : List Nat := encodeLE 8 n

/-- Bitcoin compact-size varint writer (1 / 3 / 5 / 9 bytes). -/
def write_compact_size (n : Nat) : List Nat :=
  if n < 0xFD then [n]
  else if n ≤ 0xFFFF then 0xFD :: write_uint16 n
  else if n ≤ 0xFFFFFFFF then 0xFE :: write_uint32 n
  else 0xFF :: write_uint64 n

/-- Length-prefixed byte string: compact-size length followed by raw bytes. -/
def write_string (s : List Nat) : List Nat :=
  write_compact_size s.length ++ s

/-- Read exactly `n` bytes; fails when the stream is exhausted. -/
def read_bytes (n : Nat) (b : List Nat) : Option (List Nat × List Nat) :=
  if n ≤ b.length then some (b.take n, b.drop n) else none

def read_uintN (k : Nat) (b : List Nat) : Option (Nat × List Nat) :=
  (read_bytes k b).map fun p => (decodeLE p.1, p.2)

def read_uint8 : List Nat → Option (Nat × List Nat) := read_uintN 1

def read_uint16 : List Nat → Option (Nat × List Nat) := read_uintN 2

def read_uint32 : List Nat → Option (Nat × List Nat) := read_uintN 4

def read_uint64 : List Nat → Option (Nat × List Nat) := read_uintN 8

/-- Bitcoin compact-size varint reader. -/
def read_compact_size (b : List Nat) : Option (Nat × List Nat) :=
  match b with
  | [] => none
  | x :: r =>
    if x < 0xFD then some (x, r)
    else if x = 0xFD then read_uint16 r
    else if x = 0xFE then read_uint32 r
    else read_uint64 r

/-- Read a length-prefixed byte string. -/
def read_string (b : List Nat) : Option (List Nat × List Nat) := do
  let (n, r) ← read_compact_size b
  read_bytes n r

/-! ### Codec round-trip lemmas -/

theorem length_encodeLE (k n : Nat) : (encodeLE k n).length = k := by
  induction k generalizing n with
  | zero => rfl
  | succ k ih => simp [encodeLE, ih]

theorem decodeLE_encodeLE (k n : Nat) : decodeLE (encodeLE k n) = n % 256 ^ k := by
  induction k generalizing n with
  | zero => simp [encodeLE, decodeLE, Nat.mod_one]
  | succ k ih =>
    have h256 : (256 : Nat) ^ (k + 1) = 256 * 256 ^ k := by ring
    simp only [encodeLE, decodeLE, List.foldr_cons, h256]
    have := ih (n / 256)
    simp only [decodeLE] at this
    rw [this, Nat.mod_mul]

theorem read_bytes_append (l rest : List Nat) :
    read_bytes l.length (l ++ rest) = some (l, rest) := by
  simp [read_bytes]

theorem read_bytes_append_of_length {n : Nat} {l : List Nat} (h : l.length = n)
    (rest : List Nat) : read_bytes n (l ++ rest) = some (l, rest) := by
  subst h; exact read_bytes_append l rest

theorem read_uintN_write (k n : Nat) (rest : List Nat) (h : n < 256 ^ k) :
    read_uintN k (encodeLE k n ++ rest) = some (n, rest) := by
  rw [read_uintN, read_bytes_append_of_length (length_encodeLE k n)]
  simp [decodeLE_encodeLE, Nat.mod_eq_of_lt h]

theorem read_uint8_write (n : Nat) (rest : List Nat) (h : n < 256) :
    read_uint8 (write_uint8 n ++ rest) = some (n, rest) :=
  read_uintN_write 1 n rest (by simpa using h)

theorem read_uint16_write (n : Nat) (rest : List Nat) (h : n < 2 ^ 16) :
    read_uint16 (write_uint16 n ++ rest) = some (n, rest) :=
  read_uintN_write 2 n rest (by norm_num at h ⊢; omega)

theorem read_uint32_write (n : Nat) (rest : List Nat) (h : n < 2 ^ 32) :
    read_uint32 (write_uint32 n ++ rest) = some (n, rest) :=
  read_uintN_write 4 n rest (by norm_num at h ⊢; omega)

theorem read_uint64_write (n : Nat) (rest : List Nat) (h : n < 2 ^ 64) :
    read_uint64 (write_uint64 n ++ rest) = some (n, rest) :=
  read_uintN_write 8 n rest (by norm_num at h ⊢; omega)

theorem read_compact_size_write (n : Nat) (rest : List Nat) (h : n < 2 ^ 64) :
    read_compact_size (write_compact_size n ++ rest) = some (n, rest) := by
  rw [write_compact_size]
  split_ifs with h1 h2 h3
  · simp [read_compact_size, h1]
  · have : ¬ (0xFD : Nat) < 0xFD := by norm_num
    simp only [List.cons_append, read_compact_size, this, if_false, if_pos rfl]
    exact read_uint16_write n rest (by norm_num; omega)
  · simp only [List.cons_append, read_compact_size]
    norm_num
    exact read_uint32_write n rest (by norm_num; omega)
  · simp only [List.cons_append, read_compact_size]
    norm_num
    exact read_uint64_write n rest h

theorem read_string_write (s : List Nat) (rest : List Nat) (h : s.length < 2 ^ 64) :
    read_string (write_string s ++ rest) = some (s, rest) := by
  rw [read_string, write_string, List.append_assoc,
    read_compact_size_write s.length (s ++ rest) h]
  simpa using read_bytes_append s rest

/-! ### Error kinds

Concrete representations of the error taxonomy raised by
`lbry/blockchain/transaction.py` (ValueError / KeyError / failed assert). -/

inductive Err where
  /-- ValueError in Input.amount: the previous output is not attached. -/
  | unresolvedRef : Err
  /-- ValueError in net_account_balance: an input lacks is_my_input. -/
  | missingMyInput : Err
  /-- ValueError in net_account_balance: an output lacks is_my_output. -/
  | missingMyOutput : Err
  /-- ValueError in Output.claim_hash: no claim associated. -/
  | noClaim : Err
  /-- KeyError: a script value-map lookup failed. -/
  | keyErr : Err
  deriving DecidableEq, Repr

/-! ### Domain model: Output, TXORef, Input, Transaction

Shallow embedding of the classes in `lbry/blockchain/transaction.py`.
`OutputScript` / `InputScript` are external codecs; at this (wire) level an
output script is represented by its `source` bytes, and an input's parsed
redeem script likewise by its source bytes.  The `tx_ref` assigned by
`Transaction._add` is the owning transaction's `TXRefMutable` object; object
identity is modelled by a numeric object id (`refObjId` below). -/

/-- Wire-level view of `Output`: the serialized fields (`amount`,
`script.source`) plus the wallet annotation and ownership back-references
used by the balance accessors.  (The external `OutputScript` object also
records a disassembly `offset`; that is metadata of the external codec and
is not modelled.) -/
structure Output where
  amount : Nat
  scriptSource : List Nat
  is_my_output : Option Bool := none
  position : Option Nat := none
  txRefId : Option Nat := none
  deriving DecidableEq, Repr

/-- `TXORef`: pair of previous-tx hash and output position, optionally
resolvable to the `Output` it points at (`TXORefResolvable`). -/
structure TXORef where
  txRefHash : List Nat
  position : Nat
  txo : Option Output := none
  deriving DecidableEq, Repr

/-- `TXRef.is_null`: true iff the referenced hash is the 32-byte null hash. -/
def TXORef.is_null (r : TXORef) : Bool :=
  r.txRefHash = List.replicate 32 0

/-- `Input`: exactly one of `script` / `coinbase` is set, decided by the
null-ness of the spent reference (see `Input.make`). -/
structure Input where
  txoRef : TXORef
  sequence : Nat
  coinbase : Option (List Nat)
  script : Option (List Nat)
  position : Option Nat := none
  txRefId : Option Nat := none
  deriving DecidableEq, Repr

/-- The `Input.__init__` constructor: `coinbase = script if txo_ref.is_null
else None`, `script = script if not txo_ref.is_null else None`. -/
def Input.make (txoRef : TXORef) (script : List Nat)
    (sequence : Nat := 0xFFFFFFFF) : Input :=
  { txoRef := txoRef
    sequence := sequence
    coinbase := if txoRef.is_null then some script else none
    script := if txoRef.is_null then none else some script }

def Input.is_coinbase (i : Input) : Bool := i.coinbase.isSome

/-- `Input.NULL_HASH32`. -/
def NULL_HASH32 : List Nat := List.replicate 32 0

/-- `b'beef'`, the literal placeholder coinbase bytes. -/
def beefBytes : List Nat := [0x62, 0x65, 0x65, 0x66]

/-- `Input.create_coinbase`: a TXORef at the null 32-byte hash, position 0,
with the placeholder bytes `b'beef'` as coinbase. -/
def Input.create_coinbase : Input :=
  Input.make ⟨NULL_HASH32, 0, none⟩ beefBytes

/-- `Input.serialize_to(stream, alternate_script=None)`: previous-tx hash,
u32 position, length-prefixed script (the alternate script when given, else
the coinbase bytes for a coinbase input, else the redeem script source),
u32 sequence. -/
def Input.serialize_to (i : Input) (alternate_script : Option (List Nat) := none) :
    List Nat :=
  i.txoRef.txRefHash ++ write_uint32 i.txoRef.position ++
    (match alternate_script with
     | some alt => write_string alt
     | none =>
       match i.coinbase with
       | some cb => write_string cb
       | none => write_string (i.script.getD [])) ++
    write_uint32 i.sequence

/-- `Input.deserialize_from`: 32-byte previous hash, u32 position,
length-prefixed script bytes (kept raw as coinbase when the hash is null,
parsed as a redeem script otherwise — both carry the same source bytes),
u32 sequence. -/
def Input.deserialize_from (b : List Nat) : Option (Input × List Nat) := do
  let (h, b) ← read_bytes 32 b
  let (position, b) ← read_uint32 b
  let (script, b) ← read_string b
  let (sequence, b) ← read_uint32 b
  some (Input.make ⟨h, position, none⟩ script sequence, b)

/-- `Input.amount`: fails when the previous output is not attached. -/
def Input.amount (i : Input) : Except Err Nat :=
  match i.txoRef.txo with
  | none => .error .unresolvedRef
  | some txo => .ok txo.amount

/-- `Input.is_my_input`: `False` when the previous output is not attached,
else the spent output's `is_my_output` annotation (which may be unset). -/
def Input.is_my_input (i : Input) : Option Bool :=
  match i.txoRef.txo with
  | none => some false
  | some txo => txo.is_my_output

/-- `Output.serialize_to`: u64 amount then length-prefixed script source. -/
def Output.serialize_to (o : Output) : List Nat :=
  write_uint64 o.amount ++ write_string o.scriptSource

/-- `Output.deserialize_from`: u64 amount, compact-size length, script
bytes.  (The stream offset passed to the external `OutputScript` is
disassembler metadata and not modelled.) -/
def Output.deserialize_from (b : List Nat) : Option (Output × List Nat) := do
  let (amount, b) ← read_uint64 b
  let (length, b) ← read_compact_size b
  let (src, b) ← read_bytes length b
  some ({ amount := amount, scriptSource := src }, b)

/-- `Transaction`: version, locktime, inputs, outputs, the segwit flag and
opaque witness items, the two lazy raw caches, and the caches held by the
transaction's own `TXRefMutable` (`_id` / `_hash`).  `refObjId` models the
object identity of `self.ref` (fresh per Python object; the value itself is
arbitrary). -/
structure Transaction where
  version : Nat := 1
  locktime : Nat := 0
  inputs : List Input := []
  outputs : List Output := []
  rawCache : Option (List Nat) := none
  rawSansSegwitCache : Option (List Nat) := none
  is_segwit_flag : Nat := 0
  witnesses : List (List Nat) := []
  refIdCache : Option (List Nat) := none
  refHashCache : Option (List Nat) := none
  refObjId : Nat := 0
  deriving DecidableEq, Repr

/-- `Transaction._serialize(with_inputs=True, sans_segwit=False)`: version,
compact-size input count and inputs (when `with_inputs`), compact-size
output count and outputs, locktime.  The `sans_segwit` parameter is
accepted and ignored, exactly as in the source: witness data is never
emitted. -/
def Transaction._serialize (tx : Transaction) (with_inputs : Bool := true)
    (sans_segwit : Bool := false) : List Nat :=
  write_uint32 tx.version ++
    (if with_inputs then
      write_compact_size tx.inputs.length ++
        (tx.inputs.map (fun txin => txin.serialize_to none)).flatten
     else []) ++
    write_compact_size tx.outputs.length ++
    (tx.outputs.map Output.serialize_to).flatten ++
    write_uint32 tx.locktime

/-- `Transaction.raw`: the cached raw bytes, computed by `_serialize` when
the cache is unset. -/
def Transaction.raw (tx : Transaction) : List Nat :=
  tx.rawCache.getD (tx._serialize)

/-- `Transaction.raw_sans_segwit`: when the segwit flag is set, the cached
sans-segwit bytes (computed by `_serialize(sans_segwit=True)` when unset);
otherwise `raw`. -/
def Transaction.raw_sans_segwit (tx : Transaction) : List Nat :=
  if tx.is_segwit_flag ≠ 0 then
    tx.rawSansSegwitCache.getD (tx._serialize true true)
  else
    tx.raw

/-- `Transaction._reset`: clears the raw caches and resets the mutable
TXRef's cached hash and id. -/
def Transaction._reset (tx : Transaction) : Transaction :=
  { tx with rawCache := none, rawSansSegwitCache := none,
            refIdCache := none, refHashCache := none }

/-- The input half of `Transaction._add`: each new element gets
`tx_ref = self.ref` and `position = len(existing)` and is appended. -/
def addInputsList (refObjId : Nat) (existing new : List Input) : List Input :=
  new.foldl
    (fun acc txio =>
      acc ++ [{ txio with txRefId := some refObjId, position := some acc.length }])
    existing

/-- The output half of `Transaction._add`. -/
def addOutputsList (refObjId : Nat) (existing new : List Output) : List Output :=
  new.foldl
    (fun acc txio =>
      acc ++ [{ txio with txRefId := some refObjId, position := some acc.length }])
    existing

/-- `Transaction.add_inputs`: `_add(self._inputs, inputs, True)`. -/
def Transaction.add_inputs (tx : Transaction) (new : List Input) : Transaction :=
  Transaction._reset { tx with inputs := addInputsList tx.refObjId tx.inputs new }

/-- `Transaction.add_outputs`: `_add(self._outputs, outputs, True)`. -/
def Transaction.add_outputs (tx : Transaction) (new : List Output) : Transaction :=
  Transaction._reset { tx with outputs := addOutputsList tx.refObjId tx.outputs new }

/-- `Transaction.input_sum`: `sum(i.amount for i in self.inputs if
i.txo_ref.txo is not None)` — the generator filters to resolved inputs and
`Input.amount` could still raise, hence the `Except`. -/
def Transaction.input_sum (tx : Transaction) : Except Err Nat :=
  tx.inputs.foldlM
    (fun acc i =>
      if i.txoRef.txo.isSome then do
        let a ← i.amount
        pure (acc + a)
      else pure acc)
    0

/-- `Transaction.output_sum`: sum of output amounts. -/
def Transaction.output_sum (tx : Transaction) : Nat :=
  (tx.outputs.map Output.amount).sum

/-- `Transaction.fee`: `input_sum - output_sum`. -/
def Transaction.fee (tx : Transaction) : Except Err Int := do
  let s ← tx.input_sum
  pure ((s : Int) - (tx.output_sum : Int))

/-- One iteration of the input loop of `net_account_balance`: unresolved
inputs are skipped (`continue`), `is_my_input is True` subtracts the
amount, `is_my_input is None` raises. -/
def nabInputStep (bal : Int) (txi : Input) : Except Err Int :=
  if txi.txoRef.txo.isNone then pure bal
  else if txi.is_my_input = some true then do
    let a ← txi.amount
    pure (bal - (a : Int))
  else if txi.is_my_input = none then throw .missingMyInput
  else pure bal

/-- One iteration of the output loop of `net_account_balance`. -/
def nabOutputStep (bal : Int) (txo : Output) : Except Err Int :=
  if txo.is_my_output = some true then pure (bal + (txo.amount : Int))
  else if txo.is_my_output = none then throw .missingMyOutput
  else pure bal

/-- `Transaction.net_account_balance`: inputs with an unresolved previous
output are skipped; a resolved input (or any output) with its ownership
flag unset raises. -/
def Transaction.net_account_balance (tx : Transaction) : Except Err Int := do
  let bal ← tx.inputs.foldlM nabInputStep 0
  tx.outputs.foldlM nabOutputStep bal

/-- `Transaction.signature_hash_type`: the identity. -/
def Transaction.signature_hash_type (hash_type : Nat) : Nat := hash_type

/-- The loop of `_serialize_for_signature` over `enumerate(self._inputs)`:
the signing input is serialized with the previous output's script source as
alternate script (failing when that output is not attached, the `assert`);
every other input with the empty byte string. -/
def serializeInputsForSig : List Input → Nat → Nat → Option (List Nat)
  | [], _, _ => some []
  | txin :: rest, i, signing_input => do
    let head ←
      if signing_input = i then
        match txin.txoRef.txo with
        | none => none
        | some txo => some (txin.serialize_to (some txo.scriptSource))
      else some (txin.serialize_to (some []))
    let tail ← serializeInputsForSig rest (i + 1) signing_input
    some (head ++ tail)

/-- `Transaction._serialize_for_signature(signing_input)`. -/
def Transaction._serialize_for_signature (tx : Transaction)
    (signing_input : Nat) : Option (List Nat) := do
  let ins ← serializeInputsForSig tx.inputs 0 signing_input
  some (write_uint32 tx.version ++
    write_compact_size tx.inputs.length ++ ins ++
    write_compact_size tx.outputs.length ++
    (tx.outputs.map Output.serialize_to).flatten ++
    write_uint32 tx.locktime ++
    write_uint32 (Transaction.signature_hash_type 1))

/-- Read `n` sequential items, as the list comprehensions
`[Input.deserialize_from(stream) for _ in range(n)]` do. -/
def read_list {α : Type} (readOne : List Nat → Option (α × List Nat)) :
    Nat → List Nat → Option (List α × List Nat)
  | 0, b => some ([], b)
  | n + 1, b => do
    let (x, b) ← readOne b
    let (xs, b) ← read_list readOne n b
    some (x :: xs, b)

/-- The witness drain: for each input, a compact-size item count followed by
that many length-prefixed items, all appended to one flat list. -/
def read_witnesses : Nat → List Nat → Option (List (List Nat) × List Nat)
  | 0, b => some ([], b)
  | n + 1, b => do
    let (count, b) ← read_compact_size b
    let (items, b) ← read_list read_string count b
    let (rest, b) ← read_witnesses n b
    some (items ++ rest, b)

/-- `Transaction.deserialize` body, reading from `b` into `tx` (the method
mutates `self`): version; compact-size input count; when that count is zero,
the segwit flag byte and the real input count; inputs and outputs appended
through `_add` (without a cache reset); the witness drain when the segwit
flag was set; locktime.  Trailing bytes are ignored. -/
def Transaction.deserializeInto (tx : Transaction) (b : List Nat) :
    Option Transaction := do
  let (version, b) ← read_uint32 b
  let (input_count, b) ← read_compact_size b
  let (is_segwit_flag, input_count, b) ←
    if input_count = 0 then do
      let (flag, b) ← read_uint8 b
      let (ic, b) ← read_compact_size b
      some (flag, ic, b)
    else
      some (tx.is_segwit_flag, input_count, b)
  let (ins, b) ← read_list Input.deserialize_from input_count b
  let inputs := addInputsList tx.refObjId tx.inputs ins
  let (output_count, b) ← read_compact_size b
  let (outs, b) ← read_list Output.deserialize_from output_count b
  let outputs := addOutputsList tx.refObjId tx.outputs outs
  let (witnesses, b) ←
    if is_segwit_flag ≠ 0 then read_witnesses input_count b
    else some (tx.witnesses, b)
  let (locktime, _) ← read_uint32 b
  some { tx with
    version := version
    locktime := locktime
    inputs := inputs
    outputs := outputs
    is_segwit_flag := is_segwit_flag
    witnesses := witnesses }

/-- `Transaction(raw=b)`: a fresh transaction whose `_raw` cache holds the
given bytes, immediately deserialized from them. -/
def Transaction.fromRaw (b : List Nat) : Option Transaction :=
  Transaction.deserializeInto { rawCache := some b } b

/-- `Transaction().deserialize(stream)` on a fresh transaction. -/
def Transaction.deserialize (b : List Nat) : Option Transaction :=
  Transaction.deserializeInto {} b

/-! ### Well-formedness and serialized-field projections -/

/-- The script bytes an input's serialization writes (coinbase bytes for a
coinbase input, else the redeem script source). -/
def Input.writtenScript (i : Input) : List Nat :=
  match i.coinbase with
  | some cb => cb
  | none => i.script.getD []

/-- Well-formed input: 32-byte previous hash, 32-bit position and sequence,
script bytes of representable length, and the constructor invariant that
exactly one of `coinbase` / `script` is set, decided by null-ness. -/
abbrev Input.WF (i : Input) : Prop :=
  i.txoRef.txRefHash.length = 32 ∧ i.txoRef.position < 2 ^ 32 ∧
  i.sequence < 2 ^ 32 ∧ i.writtenScript.length < 2 ^ 64 ∧
  (if i.txoRef.is_null then i.coinbase.isSome ∧ i.script = none
   else i.script.isSome ∧ i.coinbase = none)

/-- Well-formed output: 64-bit amount, script of representable length. -/
abbrev Output.WF (o : Output) : Prop :=
  o.amount < 2 ^ 64 ∧ o.scriptSource.length < 2 ^ 64

/-- Well-formed transaction: 32-bit version and locktime, representable
input/output counts, well-formed inputs and outputs. -/
abbrev Transaction.WF (tx : Transaction) : Prop :=
  tx.version < 2 ^ 32 ∧ tx.locktime < 2 ^ 32 ∧
  tx.inputs.length < 2 ^ 64 ∧ tx.outputs.length < 2 ^ 64 ∧
  (∀ i ∈ tx.inputs, i.WF) ∧ (∀ o ∈ tx.outputs, o.WF)

/-- The serialized fields of an input: previous-tx hash, previous-output
position, coinbase bytes, script bytes, sequence. -/
def Input.sfields (i : Input) :
    List Nat × Nat × Option (List Nat) × Option (List Nat) × Nat :=
  (i.txoRef.txRefHash, i.txoRef.position, i.coinbase, i.script, i.sequence)

/-- The serialized fields of an output: amount and script bytes. -/
def Output.sfields (o : Output) : Nat × List Nat :=
  (o.amount, o.scriptSource)

/-- The input value produced by re-parsing a serialized input. -/
def Input.reserialized (i : Input) : Input :=
  Input.make ⟨i.txoRef.txRefHash, i.txoRef.position, none⟩ i.writtenScript i.sequence

/-- The output value produced by re-parsing a serialized output. -/
def Output.reserialized (o : Output) : Output :=
  { amount := o.amount, scriptSource := o.scriptSource }

/-! ### Input/Output round-trip lemmas -/

theorem Input.serialize_to_none (i : Input) :
    i.serialize_to none =
      i.txoRef.txRefHash ++ write_uint32 i.txoRef.position ++
        write_string i.writtenScript ++ write_uint32 i.sequence := by
  rw [Input.serialize_to, Input.writtenScript]
  match h : i.coinbase with
  | some cb => simp
  | none => simp

theorem Input.deserialize_serialize_input (i : Input) (rest : List Nat) (h : i.WF) :
    Input.deserialize_from (i.serialize_to none ++ rest) =
      some (i.reserialized, rest) := by
  obtain ⟨hHash, hPos, hSeq, hScript, _⟩ := h
  rw [Input.serialize_to_none, Input.deserialize_from]
  simp only [List.append_assoc]
  rw [read_bytes_append_of_length hHash]
  simp only [Option.bind_eq_bind, Option.some_bind']
  rw [read_uint32_write _ _ hPos]
  simp only [Option.bind_eq_bind, Option.some_bind']
  rw [read_string_write _ _ hScript]
  simp only [Option.bind_eq_bind, Option.some_bind']
  rw [read_uint32_write _ _ hSeq]
  simp [Input.reserialized]

theorem Input.sfields_reserialized_input (i : Input) (h : i.WF) :
    i.reserialized.sfields = i.sfields := by
  obtain ⟨-, -, -, -, hcons⟩ := h
  rw [Input.reserialized, Input.make, Input.sfields, Input.sfields]
  by_cases hnull : TXORef.is_null ⟨i.txoRef.txRefHash, i.txoRef.position, none⟩
  · have hnull' : i.txoRef.is_null := by
      simpa [TXORef.is_null] using hnull
    rw [if_pos hnull'] at hcons
    obtain ⟨hcb, hsc⟩ := hcons
    obtain ⟨cb, hcb⟩ := Option.isSome_iff_exists.mp hcb
    simp [hnull, hcb, hsc, Input.writtenScript]
  · have hnull' : ¬ i.txoRef.is_null := by
      simpa [TXORef.is_null] using hnull
    rw [if_neg hnull'] at hcons
    obtain ⟨hsc, hcb⟩ := hcons
    obtain ⟨sc, hsc⟩ := Option.isSome_iff_exists.mp hsc
    simp [hnull, hcb, hsc, Input.writtenScript]

theorem Output.deserialize_serialize_output (o : Output) (rest : List Nat) (h : o.WF) :
    Output.deserialize_from (o.serialize_to ++ rest) =
      some (o.reserialized, rest) := by
  obtain ⟨hAmt, hLen⟩ := h
  rw [Output.serialize_to, Output.deserialize_from, write_string]
  simp only [List.append_assoc]
  rw [read_uint64_write _ _ hAmt]
  simp only [Option.bind_eq_bind, Option.some_bind']
  rw [read_compact_size_write _ _ hLen]
  simp only [Option.bind_eq_bind, Option.some_bind']
  rw [read_bytes_append]
  simp [Output.reserialized]

theorem Output.sfields_reserialized_output (o : Output) :
    o.reserialized.sfields = o.sfields := rfl

theorem read_list_map_serialize {α : Type} (f : α → List Nat)
    (readOne : List Nat → Option (α × List Nat)) (g : α → α)
    (l : List α) (rest : List Nat)
    (h : ∀ a ∈ l, ∀ r, readOne (f a ++ r) = some (g a, r)) :
    read_list readOne l.length ((l.map f).flatten ++ rest) =
      some (l.map g, rest) := by
  induction l with
  | nil => simp [read_list]
  | cons a l ih =>
    simp only [List.map_cons, List.flatten_cons, List.length_cons,
      List.append_assoc, read_list]
    rw [h a (by simp)]
    simp only [Option.bind_eq_bind, Option.some_bind']
    rw [ih (fun a ha r => h a (by simp [ha]) r)]
    simp

theorem read_uint32_write_nil (n : Nat) (h : n < 2 ^ 32) :
    read_uint32 (write_uint32 n) = some (n, []) := by
  have := read_uint32_write n [] h
  simpa using this

theorem addInputsList_map_sfields (r : Nat) (acc l : List Input) :
    (addInputsList r acc l).map Input.sfields = (acc ++ l).map Input.sfields := by
  induction l generalizing acc with
  | nil => simp [addInputsList]
  | cons x l ih =>
    have step : addInputsList r acc (x :: l) =
        addInputsList r
          (acc ++ [{ x with txRefId := some r, position := some acc.length }]) l := by
      rw [addInputsList, addInputsList, List.foldl_cons]
    rw [step, ih]
    simp [Input.sfields]

theorem addOutputsList_map_sfields (r : Nat) (acc l : List Output) :
    (addOutputsList r acc l).map Output.sfields = (acc ++ l).map Output.sfields := by
  induction l generalizing acc with
  | nil => simp [addOutputsList]
  | cons x l ih =>
    have step : addOutputsList r acc (x :: l) =
        addOutputsList r
          (acc ++ [{ x with txRefId := some r, position := some acc.length }]) l := by
      rw [addOutputsList, addOutputsList, List.foldl_cons]
    rw [step, ih]
    simp [Output.sfields]

/-- Deserializing the canonical serialization of a well-formed transaction
with at least one input succeeds and yields exactly the re-parsed inputs and
outputs, position-assigned through `_add`, with the segwit flag clear. -/
theorem fromRaw_serialize (tx : Transaction) (hWF : tx.WF)
    (hne : tx.inputs ≠ []) :
    Transaction.fromRaw tx._serialize =
      some { version := tx.version
             locktime := tx.locktime
             inputs := addInputsList 0 [] (tx.inputs.map Input.reserialized)
             outputs := addOutputsList 0 [] (tx.outputs.map Output.reserialized)
             rawCache := some tx._serialize
             rawSansSegwitCache := none
             is_segwit_flag := 0
             witnesses := []
             refIdCache := none
             refHashCache := none
             refObjId := 0 } := by
  obtain ⟨hv, hl, hic, hoc, hins, houts⟩ := hWF
  have hcount : tx.inputs.length ≠ 0 := by
    simpa [List.length_eq_zero] using hne
  rw [Transaction.fromRaw]
  conv_lhs =>
    rw [Transaction.deserializeInto]
  rw [Transaction._serialize]
  simp only [if_true, List.append_assoc]
  rw [read_uint32_write _ _ hv]
  simp only [Option.bind_eq_bind, Option.some_bind']
  rw [read_compact_size_write _ _ hic]
  simp only [Option.bind_eq_bind, Option.some_bind', if_neg hcount]
  rw [read_list_map_serialize (fun i => i.serialize_to none) Input.deserialize_from
    Input.reserialized tx.inputs _
    (fun a ha r => Input.deserialize_serialize_input a r (hins a ha))]
  simp only [Option.bind_eq_bind, Option.some_bind']
  rw [read_compact_size_write _ _ hoc]
  simp only [Option.bind_eq_bind, Option.some_bind']
  rw [read_list_map_serialize Output.serialize_to Output.deserialize_from
    Output.reserialized tx.outputs _
    (fun a ha r => Output.deserialize_serialize_output a r (houts a ha))]
  simp only [Option.bind_eq_bind, Option.some_bind', ne_eq,
    not_true_eq_false, if_neg, if_false]
  rw [read_uint32_write_nil _ hl]
  simp [Transaction._serialize]

/-- Claim C1 (amended): for every well-formed transaction with at least one
input, deserializing the bytes produced by serializing it yields a
transaction equal on every serialized field: version, locktime, the inputs
(previous-tx hash, position, coinbase bytes, script bytes, sequence) and
the outputs (amount, script bytes).  (A transaction with no inputs is
mis-detected as segwit by the parser and does not round-trip.) -/
theorem roundtrip_serialize_deserialize (tx : Transaction) (hWF : tx.WF)
    (hne : tx.inputs ≠ []) :
    ∃ tx', Transaction.fromRaw tx._serialize = some tx' ∧
      tx'.version = tx.version ∧ tx'.locktime = tx.locktime ∧
      tx'.inputs.map Input.sfields = tx.inputs.map Input.sfields ∧
      tx'.outputs.map Output.sfields = tx.outputs.map Output.sfields := by
  refine ⟨_, fromRaw_serialize tx hWF hne, rfl, rfl, ?_, ?_⟩
  · rw [addInputsList_map_sfields]
    simp only [List.nil_append, List.map_map]
    exact List.map_congr_left fun i hi =>
      Input.sfields_reserialized_input i (hWF.2.2.2.2.1 i hi)
  · rw [addOutputsList_map_sfields]
    simp only [List.nil_append, List.map_map]
    exact List.map_congr_left fun o _ => Output.sfields_reserialized_output o

/-- A concrete well-formed one-input, one-output transaction. -/
def sampleTx : Transaction :=
  { version := 2
    locktime := 7
    inputs := [Input.make ⟨(List.range 32).map (fun n => n + 1), 3, none⟩ [0xAA, 0xBB]]
    outputs := [{ amount := 5000000000, scriptSource := [0x76, 0xA9, 0x88] }] }

/-- Claim C1 witness: the round-trip theorem applied to `sampleTx`. -/
theorem roundtrip_serialize_deserialize_witness :
    ∃ tx', Transaction.fromRaw sampleTx._serialize = some tx' ∧
      tx'.version = sampleTx.version ∧ tx'.locktime = sampleTx.locktime ∧
      tx'.inputs.map Input.sfields = sampleTx.inputs.map Input.sfields ∧
      tx'.outputs.map Output.sfields = sampleTx.outputs.map Output.sfields :=
  roundtrip_serialize_deserialize sampleTx (by decide) (by decide)

/-- A concrete well-formed transaction with no inputs and one output. -/
def emptyInputTx : Transaction :=
  { version := 1, locktime := 0, inputs := [],
    outputs := [{ amount := 0, scriptSource := [] }] }

/-- Claim C1 counterexample: for the zero-input transaction `emptyInputTx`,
deserializing its serialization parses successfully but yields a
transaction whose output list does not match (the serialized zero input
count is mis-read as the segwit marker), so the round-trip claim is false
for transactions without inputs. -/
theorem roundtrip_fails_on_empty_inputs :
    emptyInputTx.WF ∧
      (Transaction.fromRaw emptyInputTx._serialize).map
          (fun t => t.outputs.map Output.sfields)
        ≠ some (emptyInputTx.outputs.map Output.sfields) :=
  ⟨by decide, by decide⟩

/-- Claim C2 (amended): whenever the two raw caches are unset (as on a
freshly built or just-mutated transaction), `raw` equals `raw_sans_segwit`
regardless of the segwit flag: the serializer never re-emits the witness
marker, flag, or witness items.  (A transaction deserialized from segwit
wire bytes still holds the original bytes in its raw cache, so there `raw`
differs — see the counterexample.) -/
theorem raw_eq_raw_sans_segwit_of_uncached (tx : Transaction)
    (h1 : tx.rawCache = none) (h2 : tx.rawSansSegwitCache = none) :
    tx.raw = tx.raw_sans_segwit := by
  rw [Transaction.raw, Transaction.raw_sans_segwit, h1, h2]
  by_cases h : tx.is_segwit_flag ≠ 0
  · rw [if_pos h]
    rfl
  · rw [if_neg h, Transaction.raw, h1]

/-- A concrete transaction with the segwit flag set and no cached raws. -/
def segwitFlaggedTx : Transaction :=
  { sampleTx with is_segwit_flag := 1 }

/-- Claim C2 witness: the amended theorem applied to `segwitFlaggedTx`. -/
theorem raw_eq_raw_sans_segwit_of_uncached_witness :
    segwitFlaggedTx.raw = segwitFlaggedTx.raw_sans_segwit :=
  raw_eq_raw_sans_segwit_of_uncached segwitFlaggedTx (by decide) (by decide)

/-- Concrete segwit wire bytes: version 1, segwit marker and flag, one
input, one output, one witness item `[0xAA]`, locktime 0. -/
def segwitBytes : List Nat :=
  write_uint32 1 ++ [0x00, 0x01] ++ [0x01] ++
    List.replicate 32 0x11 ++ write_uint32 0 ++ [0x00] ++ write_uint32 0xFFFFFFFF ++
    [0x01] ++ write_uint64 0 ++ [0x00] ++
    [0x01] ++ [0x01, 0xAA] ++
    write_uint32 0

/-- Claim C2 counterexample: deserializing the segwit wire bytes yields a
transaction whose segwit flag is set (1) but whose `raw` — the original
wire bytes kept in the raw cache, witness section included — differs from
`raw_sans_segwit`, so the claim as stated is false. -/
theorem raw_ne_raw_sans_segwit_after_segwit_deserialize :
    (Transaction.fromRaw segwitBytes).map
        (fun t => (t.is_segwit_flag, decide (t.raw = t.raw_sans_segwit)))
      = some (1, false) := by
  decide

/-! ### Position consistency (claim C3) -/

/-- A call to `add_inputs` or `add_outputs`. -/
inductive TxOp where
  | addIns (l : List Input)
  | addOuts (l : List Output)

/-- Apply one mutation call. -/
def TxOp.apply (tx : Transaction) : TxOp → Transaction
  | .addIns l => tx.add_inputs l
  | .addOuts l => tx.add_outputs l

/-- Every element of `l` sits at its own index and points at the owning
transaction's ref object. -/
def inputsPosOK (r : Nat) (l : List Input) : Prop :=
  ∀ k (hk : k < l.length),
    (l.get ⟨k, hk⟩).position = some k ∧ (l.get ⟨k, hk⟩).txRefId = some r

def outputsPosOK (r : Nat) (l : List Output) : Prop :=
  ∀ k (hk : k < l.length),
    (l.get ⟨k, hk⟩).position = some k ∧ (l.get ⟨k, hk⟩).txRefId = some r

theorem addInputsList_posOK (r : Nat) (acc l : List Input)
    (h : inputsPosOK r acc) : inputsPosOK r (addInputsList r acc l) := by
  induction l generalizing acc with
  | nil => exact h
  | cons x l ih =>
    have step : addInputsList r acc (x :: l) =
        addInputsList r
          (acc ++ [{ x with txRefId := some r, position := some acc.length }]) l := by
      rw [addInputsList, addInputsList, List.foldl_cons]
    rw [step]
    apply ih
    intro k hk
    rcases Nat.lt_or_ge k acc.length with hlt | hge
    · rw [List.get_eq_getElem, List.getElem_append_left hlt]
      exact h k hlt
    · have hk' : k < acc.length + 1 := by
        simpa using hk
      have hkeq : k = acc.length := by omega
      subst hkeq
      rw [List.get_eq_getElem, List.getElem_append_right (Nat.le_refl _)]
      simp

theorem addOutputsList_posOK (r : Nat) (acc l : List Output)
    (h : outputsPosOK r acc) : outputsPosOK r (addOutputsList r acc l) := by
  induction l generalizing acc with
  | nil => exact h
  | cons x l ih =>
    have step : addOutputsList r acc (x :: l) =
        addOutputsList r
          (acc ++ [{ x with txRefId := some r, position := some acc.length }]) l := by
      rw [addOutputsList, addOutputsList, List.foldl_cons]
    rw [step]
    apply ih
    intro k hk
    rcases Nat.lt_or_ge k acc.length with hlt | hge
    · rw [List.get_eq_getElem, List.getElem_append_left hlt]
      exact h k hlt
    · have hk' : k < acc.length + 1 := by
        simpa using hk
      have hkeq : k = acc.length := by omega
      subst hkeq
      rw [List.get_eq_getElem, List.getElem_append_right (Nat.le_refl _)]
      simp

/-- Both position invariants plus ref-object agreement for a transaction. -/
def positionsConsistent (tx : Transaction) : Prop :=
  inputsPosOK tx.refObjId tx.inputs ∧ outputsPosOK tx.refObjId tx.outputs

theorem apply_refObjId (tx : Transaction) (op : TxOp) :
    (TxOp.apply tx op).refObjId = tx.refObjId := by
  cases op <;>
    simp [TxOp.apply, Transaction.add_inputs, Transaction.add_outputs,
      Transaction._reset]

theorem apply_positionsConsistent (tx : Transaction) (op : TxOp)
    (h : positionsConsistent tx) : positionsConsistent (TxOp.apply tx op) := by
  obtain ⟨hin, hout⟩ := h
  cases op with
  | addIns l =>
    exact ⟨addInputsList_posOK _ _ _ hin, hout⟩
  | addOuts l =>
    exact ⟨hin, addOutputsList_posOK _ _ _ hout⟩

theorem apply_resets (tx : Transaction) (op : TxOp) :
    (TxOp.apply tx op).rawCache = none ∧
      (TxOp.apply tx op).rawSansSegwitCache = none ∧
      (TxOp.apply tx op).refIdCache = none ∧
      (TxOp.apply tx op).refHashCache = none := by
  cases op <;>
    simp [TxOp.apply, Transaction.add_inputs, Transaction.add_outputs,
      Transaction._reset]

theorem foldl_apply_resets (tx : Transaction) (ops : List TxOp)
    (hne : ops ≠ []) :
    (ops.foldl TxOp.apply tx).rawCache = none ∧
      (ops.foldl TxOp.apply tx).rawSansSegwitCache = none ∧
      (ops.foldl TxOp.apply tx).refIdCache = none ∧
      (ops.foldl TxOp.apply tx).refHashCache = none := by
  induction ops generalizing tx with
  | nil => exact absurd rfl hne
  | cons op rest ih =>
    rw [List.foldl_cons]
    rcases List.eq_nil_or_concat rest with hrest | _
    · subst hrest
      simpa using apply_resets tx op
    · rcases rest with _ | ⟨op2, rest2⟩
      · simpa using apply_resets tx op
      · exact ih (TxOp.apply tx op) (by simp)

/-- Claim C3: after any sequence of `add_inputs` / `add_outputs` calls on a
transaction whose existing inputs and outputs already sit at their own
indices (e.g. a fresh transaction), every input and output sits at its own
index (`position = i`) and carries `tx_ref = tx.ref`; and when at least one
call was made, the cached raw bytes and the mutable TXRef's cached hash and
id have been reset. -/
theorem add_ios_positions_and_reset (ops : List TxOp) (tx : Transaction)
    (h : positionsConsistent tx) :
    positionsConsistent (ops.foldl TxOp.apply tx) ∧
      (ops ≠ [] →
        (ops.foldl TxOp.apply tx).rawCache = none ∧
          (ops.foldl TxOp.apply tx).rawSansSegwitCache = none ∧
          (ops.foldl TxOp.apply tx).refIdCache = none ∧
          (ops.foldl TxOp.apply tx).refHashCache = none) := by
  constructor
  · induction ops generalizing tx with
    | nil => exact h
    | cons op rest ih =>
      rw [List.foldl_cons]
      exact ih (TxOp.apply tx op) (apply_positionsConsistent tx op h)
  · intro hne
    exact foldl_apply_resets tx ops hne

/-- Claim C3 witness: starting from a fresh transaction, adding one input
and then one output yields positions 0, matching ref ids, and cleared
caches. -/
theorem add_ios_positions_and_reset_witness :
    positionsConsistent
        (([TxOp.addIns [Input.make ⟨List.replicate 32 1, 0, none⟩ [0xAB]],
           TxOp.addOuts [{ amount := 9, scriptSource := [1] }]] :
            List TxOp).foldl TxOp.apply {}) ∧
      (([TxOp.addIns [Input.make ⟨List.replicate 32 1, 0, none⟩ [0xAB]],
         TxOp.addOuts [{ amount := 9, scriptSource := [1] }]] :
          List TxOp) ≠ [] →
        (([TxOp.addIns [Input.make ⟨List.replicate 32 1, 0, none⟩ [0xAB]],
           TxOp.addOuts [{ amount := 9, scriptSource := [1] }]] :
            List TxOp).foldl TxOp.apply {}).rawCache = none ∧
          (([TxOp.addIns [Input.make ⟨List.replicate 32 1, 0, none⟩ [0xAB]],
             TxOp.addOuts [{ amount := 9, scriptSource := [1] }]] :
              List TxOp).foldl TxOp.apply {}).rawSansSegwitCache = none ∧
          (([TxOp.addIns [Input.make ⟨List.replicate 32 1, 0, none⟩ [0xAB]],
             TxOp.addOuts [{ amount := 9, scriptSource := [1] }]] :
              List TxOp).foldl TxOp.apply {}).refIdCache = none ∧
          (([TxOp.addIns [Input.make ⟨List.replicate 32 1, 0, none⟩ [0xAB]],
             TxOp.addOuts [{ amount := 9, scriptSource := [1] }]] :
              List TxOp).foldl TxOp.apply {}).refHashCache = none) :=
  add_ios_positions_and_reset _ {} (by
    constructor <;> intro k hk <;> simp at hk)

/-! ### Signature pre-image (claim C4) -/

/-- The claim-side description of the script substitution: input `i` gets
the previous output's script source, every other input the empty byte
string, in place of its script/coinbase field. -/
def replaceScripts : List Input → Nat → List Nat → List Input
  | [], _, _ => []
  | inp :: rest, 0, src =>
    { inp with script := some src, coinbase := none } ::
      rest.map (fun j => { j with script := some [], coinbase := none })
  | inp :: rest, k + 1, src =>
    { inp with script := some [], coinbase := none } :: replaceScripts rest k src

theorem length_replaceScripts (l : List Input) (k : Nat) (src : List Nat) :
    (replaceScripts l k src).length = l.length := by
  induction l generalizing k with
  | nil => rfl
  | cons inp rest ih =>
    cases k with
    | zero => simp [replaceScripts]
    | succ k => simp [replaceScripts, ih]

/-- Writing an input with an alternate script equals writing the input with
its script field replaced by those bytes. -/
theorem serialize_to_alt (inp : Input) (x : List Nat) :
    inp.serialize_to (some x) =
      ({ inp with script := some x, coinbase := none } : Input).serialize_to none := by
  simp [Input.serialize_to]

theorem serializeInputsForSig_all_empty (l : List Input) (k s : Nat) (h : s < k) :
    serializeInputsForSig l k s =
      some ((l.map (fun inp => inp.serialize_to (some []))).flatten) := by
  induction l generalizing k with
  | nil => simp [serializeInputsForSig]
  | cons inp rest ih =>
    rw [serializeInputsForSig]
    rw [if_neg (by omega : ¬ s = k)]
    simp only [Option.bind_eq_bind, Option.some_bind']
    rw [ih (k + 1) (by omega)]
    simp

theorem serializeInputsForSig_eq_replace (l : List Input) (j k : Nat)
    (txo : Output) (hj : j < l.length)
    (hres : (l.get ⟨j, hj⟩).txoRef.txo = some txo) :
    serializeInputsForSig l k (k + j) =
      some (((replaceScripts l j txo.scriptSource).map
        (fun inp => inp.serialize_to none)).flatten) := by
  induction l generalizing k j with
  | nil => simp at hj
  | cons inp rest ih =>
    cases j with
    | zero =>
      have hres' : inp.txoRef.txo = some txo := by
        simpa using hres
      rw [serializeInputsForSig]
      rw [if_pos (by omega : k + 0 = k)]
      rw [hres']
      simp only [Option.bind_eq_bind, Option.some_bind', Nat.add_zero]
      rw [serializeInputsForSig_all_empty rest (k + 1) k (by omega)]
      simp only [Option.some_bind']
      rw [replaceScripts]
      simp only [List.map_cons, List.map_map, List.flatten_cons]
      rw [serialize_to_alt]
      have hmap : rest.map (fun a => a.serialize_to (some [])) =
          rest.map ((fun inp => inp.serialize_to none) ∘
            fun j => ({ j with script := some [], coinbase := none } : Input)) :=
        List.map_congr_left fun a _ => serialize_to_alt a []
      rw [hmap]
    | succ j =>
      have hj' : j < rest.length := by
        simpa using hj
      have hres' : (rest.get ⟨j, hj'⟩).txoRef.txo = some txo := by
        simpa using hres
      rw [serializeInputsForSig]
      rw [if_neg (by omega : ¬ k + (j + 1) = k)]
      simp only [Option.bind_eq_bind, Option.some_bind']
      have := ih j (k + 1) hj' hres'
      rw [show k + 1 + j = k + (j + 1) by omega] at this
      rw [this]
      simp only [Option.some_bind']
      rw [replaceScripts]
      simp only [List.map_cons, List.flatten_cons]
      rw [serialize_to_alt]

/-- Claim C4: for every transaction and every input index `i` whose
previous output is attached, the SIGHASH_ALL pre-image equals the canonical
serialization of the transaction with input `i`'s script field replaced by
the previous output's script source and every other input's script field
replaced by the empty byte string, followed by the little-endian u32
sighash type 1. -/
theorem serialize_for_signature_spec (tx : Transaction) (i : Nat)
    (txo : Output) (hi : i < tx.inputs.length)
    (hres : (tx.inputs.get ⟨i, hi⟩).txoRef.txo = some txo) :
    tx._serialize_for_signature i =
      some (({ tx with inputs := replaceScripts tx.inputs i txo.scriptSource } :
          Transaction)._serialize ++ write_uint32 1) := by
  rw [Transaction._serialize_for_signature]
  have h := serializeInputsForSig_eq_replace tx.inputs i 0 txo hi hres
  rw [Nat.zero_add] at h
  rw [h]
  simp only [Option.bind_eq_bind, Option.some_bind']
  rw [Transaction._serialize]
  simp [length_replaceScripts, Transaction.signature_hash_type,
    List.append_assoc]

/-- A transaction spending `sampleTx`'s output through a resolvable ref. -/
def spendingTx : Transaction :=
  { version := 1
    locktime := 0
    inputs := [Input.make
      ⟨List.replicate 32 2, 0,
        some { amount := 5000000000, scriptSource := [0x76, 0xA9, 0x88] }⟩
      [0x47, 0x21]]
    outputs := [{ amount := 4000000000, scriptSource := [0x51] }] }

/-- Claim C4 witness: the pre-image theorem applied to `spendingTx` at
input 0. -/
theorem serialize_for_signature_spec_witness :
    spendingTx._serialize_for_signature 0 =
      some (({ spendingTx with
          inputs := replaceScripts spendingTx.inputs 0 [0x76, 0xA9, 0x88] } :
        Transaction)._serialize ++ write_uint32 1) :=
  serialize_for_signature_spec spendingTx 0
    { amount := 5000000000, scriptSource := [0x76, 0xA9, 0x88] }
    (by decide) (by decide)

/-! ### Coinbase input (claim C6) -/

/-- Claim C6 counterexample: the coinbase input produced by
`create_coinbase` carries previous-output index 0, not 0xFFFFFFFF, so the
claim as stated is false (0xFFFFFFFF is the default `sequence`, not the
previous-output index). -/
theorem create_coinbase_position_ne_ffffffff :
    ¬ Input.create_coinbase.txoRef.position = 0xFFFFFFFF := by
  decide

/-- Claim C6 (amended): the coinbase input produced by `create_coinbase`
carries a null 32-byte previous-tx hash and previous-output index 0, the
raw coinbase bytes are kept in place of a parsed redeem script, and its
wire serialization is the null hash, the little-endian u32 index 0, the
length-prefixed coinbase bytes, and the default sequence 0xFFFFFFFF. -/
theorem create_coinbase_spec :
    Input.create_coinbase.txoRef.txRefHash = List.replicate 32 0 ∧
      Input.create_coinbase.txoRef.is_null = true ∧
      Input.create_coinbase.txoRef.position = 0 ∧
      Input.create_coinbase.coinbase = some beefBytes ∧
      Input.create_coinbase.script = none ∧
      Input.create_coinbase.is_coinbase = true ∧
      Input.create_coinbase.serialize_to none =
        List.replicate 32 0 ++ write_uint32 0 ++ write_string beefBytes ++
          write_uint32 0xFFFFFFFF := by
  refine ⟨rfl, by decide, rfl, by decide, by decide, by decide, ?_⟩
  decide

/-! ### Unresolved inputs, input_sum and fee (claim C7) -/

theorem input_sum_fold (l : List Input) (acc : Nat) :
    l.foldlM
        (fun acc i =>
          if i.txoRef.txo.isSome then do
            let a ← i.amount
            pure (acc + a)
          else pure acc)
        acc =
      Except.ok (ε := Err)
        (acc + ((l.filterMap (fun i => i.txoRef.txo)).map Output.amount).sum) := by
  induction l generalizing acc with
  | nil => rfl
  | cons i l ih =>
    rw [List.foldlM_cons]
    cases h : i.txoRef.txo with
    | none =>
      simp only [h, Option.isSome_none, Bool.false_eq_true, if_false, pure_bind]
      rw [ih]
      simp [h]
    | some t =>
      have hamt : i.amount = Except.ok t.amount := by
        rw [Input.amount, h]
      simp only [h, Option.isSome_some, if_true, hamt,
        show (Except.ok t.amount : Except Err Nat) = pure t.amount from rfl,
        pure_bind]
      rw [ih]
      simp [h, Nat.add_assoc]

theorem input_sum_eq (tx : Transaction) :
    tx.input_sum =
      Except.ok
        ((tx.inputs.filterMap (fun i => i.txoRef.txo)).map Output.amount).sum := by
  rw [Transaction.input_sum]
  have := input_sum_fold tx.inputs 0
  rw [this]
  simp

/-- Claim C7 (amended): accessing `amount` on an input whose previous
output is not attached fails with the UnresolvedReference-kind error; but
`input_sum` and `fee` do not fail on such transactions — the generator in
`input_sum` filters to resolved inputs, so both return a value: the sum of
the resolved inputs' amounts, and that sum minus the output sum. -/
theorem amount_error_and_input_sum_skips :
    (∀ inp : Input, inp.txoRef.txo = none →
        inp.amount = Except.error Err.unresolvedRef) ∧
      (∀ tx : Transaction, tx.input_sum =
        Except.ok
          ((tx.inputs.filterMap (fun i => i.txoRef.txo)).map Output.amount).sum) ∧
      (∀ tx : Transaction, tx.fee =
        Except.ok
          ((((tx.inputs.filterMap (fun i => i.txoRef.txo)).map
              Output.amount).sum : Int) - (tx.output_sum : Int))) := by
  refine ⟨?_, input_sum_eq, ?_⟩
  · intro inp h
    rw [Input.amount, h]
  · intro tx
    rw [Transaction.fee, input_sum_eq]
    rfl

/-- A transaction holding one unresolved input and no outputs. -/
def unresolvedInputTx : Transaction :=
  { inputs := [Input.make ⟨List.replicate 32 3, 1, none⟩ [0x05]] }

/-- Claim C7 witness: the amended theorem instantiated at an unresolved
input and at `unresolvedInputTx`. -/
theorem amount_error_and_input_sum_skips_witness :
    (Input.make ⟨List.replicate 32 3, 1, none⟩ [0x05]).amount =
        Except.error Err.unresolvedRef ∧
      unresolvedInputTx.input_sum = Except.ok 0 ∧
      unresolvedInputTx.fee = Except.ok 0 :=
  ⟨amount_error_and_input_sum_skips.1 _ rfl,
    amount_error_and_input_sum_skips.2.1 unresolvedInputTx,
    amount_error_and_input_sum_skips.2.2 unresolvedInputTx⟩

/-- Claim C7 counterexample: `unresolvedInputTx` contains an input whose
previous output is not attached, yet `input_sum` and `fee` return values
(`ok 0`) instead of failing, so the claim as stated is false. -/
theorem input_sum_returns_value_on_unresolved :
    unresolvedInputTx.inputs.map (fun i => i.txoRef.txo) = [none] ∧
      unresolvedInputTx.input_sum = Except.ok 0 ∧
      unresolvedInputTx.fee = Except.ok 0 :=
  ⟨rfl, rfl, rfl⟩

/-! ### is_my_input and net_account_balance (claim C10) -/

theorem nabInputStep_unresolved (bal : Int) (txi : Input)
    (h : txi.txoRef.txo = none) : nabInputStep bal txi = pure bal := by
  rw [nabInputStep, if_pos]
  rw [h]
  rfl

theorem nabInputStep_error_eq (bal : Int) (txi : Input) (e : Err)
    (h : nabInputStep bal txi = Except.error e) : e = Err.missingMyInput := by
  rw [nabInputStep] at h
  split_ifs at h with h1 h2 h3
  · cases h
  · rw [Input.amount] at h
    cases htxo : txi.txoRef.txo with
    | none =>
      rw [htxo] at h1
      simp at h1
    | some t =>
      rw [htxo] at h
      cases h
  · cases h
    rfl
  · cases h

theorem nab_fold_filter (l : List Input) (bal : Int) :
    l.foldlM nabInputStep bal =
      (l.filter (fun i => i.txoRef.txo.isSome)).foldlM nabInputStep bal := by
  induction l generalizing bal with
  | nil => rfl
  | cons i l ih =>
    rw [List.foldlM_cons]
    cases h : i.txoRef.txo with
    | none =>
      rw [nabInputStep_unresolved bal i h, pure_bind, ih]
      have : (i :: l).filter (fun i => i.txoRef.txo.isSome) =
          l.filter (fun i => i.txoRef.txo.isSome) := by
        rw [List.filter_cons]
        simp [h]
      rw [this]
    | some t =>
      have : (i :: l).filter (fun i => i.txoRef.txo.isSome) =
          i :: l.filter (fun i => i.txoRef.txo.isSome) := by
        rw [List.filter_cons]
        simp [h]
      rw [this, List.foldlM_cons]
      cases hstep : nabInputStep bal i with
      | ok b2 => exact ih b2
      | error e => rfl

theorem nab_fold_error (l : List Input) (bal : Int)
    (h : ∃ i ∈ l, i.txoRef.txo.isSome ∧ i.is_my_input = none) :
    l.foldlM nabInputStep bal = Except.error Err.missingMyInput := by
  induction l generalizing bal with
  | nil => simp at h
  | cons i l ih =>
    rw [List.foldlM_cons]
    rcases h with ⟨j, hj, hjsome, hjnone⟩
    rcases List.mem_cons.mp hj with hj | hj
    · subst hj
      have hstep : nabInputStep bal j = Except.error Err.missingMyInput := by
        rw [nabInputStep]
        rw [if_neg (by
          rcases Option.isSome_iff_exists.mp hjsome with ⟨t, ht⟩
          rw [ht]
          simp)]
        rw [if_neg (by rw [hjnone]; simp)]
        rw [if_pos hjnone]
        rfl
      rw [hstep]
      rfl
    · cases hstep : nabInputStep bal i with
      | ok b2 => exact ih b2 ⟨j, hj, hjsome, hjnone⟩
      | error e =>
        have he := nabInputStep_error_eq bal i e hstep
        subst he
        rfl

/-- Claim C10: an input whose previous output is not attached has
`is_my_input = False` rather than raising; `net_account_balance` skips such
inputs entirely (the balance equals that of the transaction restricted to
its resolved inputs, so they contribute nothing and never trigger the
missing-annotation error); and a transaction containing a resolved input
whose ownership flag is unset makes `net_account_balance` fail. -/
theorem is_my_input_and_net_balance_spec :
    (∀ inp : Input, inp.txoRef.txo = none → inp.is_my_input = some false) ∧
      (∀ tx : Transaction, tx.net_account_balance =
        Transaction.net_account_balance
          { tx with inputs := tx.inputs.filter (fun i => i.txoRef.txo.isSome) }) ∧
      (∀ tx : Transaction,
        (∃ i ∈ tx.inputs, i.txoRef.txo.isSome ∧ i.is_my_input = none) →
          tx.net_account_balance = Except.error Err.missingMyInput) := by
  refine ⟨?_, ?_, ?_⟩
  · intro inp h
    rw [Input.is_my_input, h]
  · intro tx
    rw [Transaction.net_account_balance, Transaction.net_account_balance]
    rw [nab_fold_filter]
  · intro tx h
    rw [Transaction.net_account_balance]
    rw [nab_fold_error tx.inputs 0 h]
    rfl

/-- A transaction with one unresolved input, one resolved not-mine input,
and one annotated output. -/
def mixedTx : Transaction :=
  { inputs := [Input.make ⟨List.replicate 32 3, 1, none⟩ [0x05],
      Input.make
        ⟨List.replicate 32 4, 0,
          some { amount := 11, scriptSource := [2], is_my_output := some false }⟩
        [0x06]]
    outputs := [{ amount := 5, scriptSource := [1], is_my_output := some true }] }

/-- A transaction whose single input resolves to an output with no
ownership flag. -/
def unannotatedTx : Transaction :=
  { inputs := [Input.make
      ⟨List.replicate 32 4, 0, some { amount := 11, scriptSource := [2] }⟩
      [0x06]] }

/-- Claim C10 witness: the three parts instantiated at concrete inputs and
transactions. -/
theorem is_my_input_and_net_balance_spec_witness :
    (Input.make ⟨List.replicate 32 3, 1, none⟩ [0x05]).is_my_input =
        some false ∧
      mixedTx.net_account_balance =
        Transaction.net_account_balance
          { mixedTx with
              inputs := mixedTx.inputs.filter (fun i => i.txoRef.txo.isSome) } ∧
      unannotatedTx.net_account_balance = Except.error Err.missingMyInput :=
  ⟨is_my_input_and_net_balance_spec.1 _ rfl,
    is_my_input_and_net_balance_spec.2.1 mixedTx,
    is_my_input_and_net_balance_spec.2.2 unannotatedTx
      ⟨Input.make
        ⟨List.replicate 32 4, 0, some { amount := 11, scriptSource := [2] }⟩
        [0x06], by simp [unannotatedTx], by decide, rfl⟩⟩

/-! ### Claim identity (claim C5)

`OutputScript` is an external codec (script.py is not under src/).
Modelled from the spec: a script is a tagged variant — pay-pubkey-hash,
claim-name, update-claim, support-claim, return-data or other — each
carrying its own fields of the value map (section 6.2 of the spec;
`claim_id` is the 20-byte little-endian value for update/support).
`hash160` is an external pure function (crypto/hash.py is not under src/)
and is passed as a parameter. -/

namespace Claiming

inductive OutputScriptModel where
  | payPubkeyHash (pubkey_hash : List Nat)
  | claimName (claim_name : List Nat) (claim : List Nat) (pubkey_hash : List Nat)
  | updateClaim (claim_name : List Nat) (claim_id : List Nat) (claim : List Nat)
      (pubkey_hash : List Nat)
  | supportClaim (claim_name : List Nat) (claim_id : List Nat)
      (pubkey_hash : List Nat)
  | returnData (data : List Nat)
  | other
  deriving DecidableEq, Repr

def OutputScriptModel.is_claim_name : OutputScriptModel → Bool
  | .claimName _ _ _ => true
  | _ => false

def OutputScriptModel.is_update_claim : OutputScriptModel → Bool
  | .updateClaim _ _ _ _ => true
  | _ => false

def OutputScriptModel.is_support_claim : OutputScriptModel → Bool
  | .supportClaim _ _ _ => true
  | _ => false

/-- The `values['claim_id']` lookup of the external script codec. -/
def OutputScriptModel.claim_id_value : OutputScriptModel → Option (List Nat)
  | .updateClaim _ cid _ _ => some cid
  | .supportClaim _ cid _ => some cid
  | _ => none

/-- An output as seen by the claim accessors: its script, and the owning
transaction's hash (`tx_ref.hash`) and its position within it. -/
structure Output where
  script : OutputScriptModel
  txRefHash : List Nat
  position : Nat
  deriving DecidableEq, Repr

/-- `struct.pack('>I', n)`: big-endian 4-byte encoding. -/
def pack_u32_be (n : Nat) : List Nat :=
  [n / 16777216 % 256, n / 65536 % 256, n / 256 % 256, n % 256]

/-- `Output.claim_hash`: `hash160(tx_ref.hash ++ u32_be(position))` for a
claim-name script; the script's `claim_id` value for update/support;
ValueError otherwise.  `hash160` is the external hash, passed in. -/
def Output.claim_hash (hash160 : List Nat → List Nat) (o : Output) :
    Except Err (List Nat) :=
  if o.script.is_claim_name then
    .ok (hash160 (o.txRefHash ++ pack_u32_be o.position))
  else if o.script.is_update_claim || o.script.is_support_claim then
    match o.script.claim_id_value with
    | some cid => .ok cid
    | none => .error .keyErr
  else
    .error .noClaim

end Claiming

/-- Claim C5: for an output attached to a transaction, `claim_hash` is
`hash160` of the owning transaction's hash concatenated with the big-endian
u32 position when the script is claim-name; the script's stored `claim_id`
value when the script is update-claim or support-claim; and a failure for
every other script type. -/
theorem claim_hash_spec (hash160 : List Nat → List Nat) (o : Claiming.Output) :
    (∀ n c p, o.script = .claimName n c p →
        o.claim_hash hash160 =
          .ok (hash160 (o.txRefHash ++ Claiming.pack_u32_be o.position))) ∧
      (∀ n cid c p, o.script = .updateClaim n cid c p →
        o.claim_hash hash160 = .ok cid) ∧
      (∀ n cid p, o.script = .supportClaim n cid p →
        o.claim_hash hash160 = .ok cid) ∧
      ((∀ n c p, o.script ≠ .claimName n c p) →
        (∀ n cid c p, o.script ≠ .updateClaim n cid c p) →
        (∀ n cid p, o.script ≠ .supportClaim n cid p) →
        ∃ e, o.claim_hash hash160 = .error e) := by
  refine ⟨?_, ?_, ?_, ?_⟩
  · intro n c p h
    rw [Claiming.Output.claim_hash, if_pos (by rw [h]; rfl)]
  · intro n cid c p h
    rw [Claiming.Output.claim_hash, if_neg (by rw [h]; simp
        [Claiming.OutputScriptModel.is_claim_name])]
    rw [if_pos (by rw [h]; rfl)]
    rw [h]
    rfl
  · intro n cid p h
    rw [Claiming.Output.claim_hash, if_neg (by rw [h]; simp
        [Claiming.OutputScriptModel.is_claim_name])]
    rw [if_pos (by rw [h]; simp [Claiming.OutputScriptModel.is_update_claim,
      Claiming.OutputScriptModel.is_support_claim])]
    rw [h]
    rfl
  · intro h1 h2 h3
    cases hscript : o.script with
    | payPubkeyHash p =>
      refine ⟨.noClaim, ?_⟩
      rw [Claiming.Output.claim_hash]
      rw [if_neg (by rw [hscript]; simp [Claiming.OutputScriptModel.is_claim_name])]
      rw [if_neg (by rw [hscript]; simp [Claiming.OutputScriptModel.is_update_claim,
        Claiming.OutputScriptModel.is_support_claim])]
    | claimName n c p => exact absurd hscript (h1 n c p)
    | updateClaim n cid c p => exact absurd hscript (h2 n cid c p)
    | supportClaim n cid p => exact absurd hscript (h3 n cid p)
    | returnData d =>
      refine ⟨.noClaim, ?_⟩
      rw [Claiming.Output.claim_hash]
      rw [if_neg (by rw [hscript]; simp [Claiming.OutputScriptModel.is_claim_name])]
      rw [if_neg (by rw [hscript]; simp [Claiming.OutputScriptModel.is_update_claim,
        Claiming.OutputScriptModel.is_support_claim])]
    | other =>
      refine ⟨.noClaim, ?_⟩
      rw [Claiming.Output.claim_hash]
      rw [if_neg (by rw [hscript]; simp [Claiming.OutputScriptModel.is_claim_name])]
      rw [if_neg (by rw [hscript]; simp [Claiming.OutputScriptModel.is_update_claim,
        Claiming.OutputScriptModel.is_support_claim])]

/-- A concrete claim-name output at position 5. -/
def claimNameOutput : Claiming.Output :=
  { script := .claimName [0x61] [0x08] [0x99]
    txRefHash := List.replicate 32 7
    position := 5 }

/-- Claim C5 witness: the claim-hash rules instantiated at concrete
outputs and a concrete stand-in hash function. -/
theorem claim_hash_spec_witness :
    claimNameOutput.claim_hash List.reverse =
        .ok (List.reverse (List.replicate 32 7 ++ Claiming.pack_u32_be 5)) ∧
      Claiming.Output.claim_hash List.reverse
          { script := .supportClaim [0x61] (List.replicate 20 9) [0x99]
            txRefHash := List.replicate 32 7, position := 1 } =
        .ok (List.replicate 20 9) ∧
      ∃ e, Claiming.Output.claim_hash List.reverse
          { script := .payPubkeyHash [0x99]
            txRefHash := List.replicate 32 7, position := 0 } = .error e :=
  ⟨(claim_hash_spec List.reverse claimNameOutput).1 _ _ _ rfl,
    (claim_hash_spec List.reverse _).2.2.1 _ _ _ rfl,
    (claim_hash_spec List.reverse _).2.2.2
      (fun n c p h => by cases h) (fun n cid c p h => by cases h)
      (fun n cid p h => by cases h)⟩

/-! ### Claim-signing transitions (claim C8)

The `Claim` payload codec, `OutputScript.generate`, `sha256` and the
deterministic ECDSA signer are external (schema/claim.py, script.py and
crypto are not under src/).  Modelled from the spec: the core touches only
the payload's `signing_channel_hash` and `signature` fields and its
`to_message_bytes()` form; `clear_signature` returns the payload to the
unsigned state; `script.generate()` regenerates the script source bytes
from its value map.  The external functions are passed as parameters. -/

namespace Signing

/-- The mutable fields of the external claim payload. -/
structure Claim where
  signing_channel_hash : Option (List Nat)
  signature : Option (List Nat)
  body : List Nat
  deriving DecidableEq, Repr

/-- Modelled from the spec: `Claim.clear_signature` returns the payload to
its unsigned state. -/
def Claim.clear_signature (c : Claim) : Claim :=
  { c with signature := none, signing_channel_hash := none }

/-- An output script holding its source bytes and the embedded claim
payload (`values['claim']`). -/
structure OutputScript where
  source : List Nat
  claim : Claim
  deriving DecidableEq, Repr

/-- The external functions used by the signing pipeline:
`OutputScript.generate`'s source regeneration from the value map, the
payload serializer `to_message_bytes`, `sha256`, and the channel key's
deterministic ECDSA signer. -/
structure ExtOps where
  scriptGenerate : Claim → List Nat
  toMessageBytes : Claim → List Nat
  sha256 : List Nat → List Nat
  signDigest : List Nat → List Nat

/-- An output as seen by the signing transitions: its script, and the
`channel` resolution link (carrying the channel's claim hash). -/
structure Output where
  script : OutputScript
  channel : Option (List Nat)
  deriving DecidableEq, Repr

/-- `Output.sign(channel)`: stores the channel link, writes
`signing_channel_hash = channel.claim_hash`, signs the digest of
first-input hash ++ channel hash ++ message bytes, writes the signature,
and regenerates the script source. -/
def Output.sign (ops : ExtOps) (channelClaimHash firstInputHash : List Nat)
    (o : Output) : Output :=
  let claim1 := { o.script.claim with signing_channel_hash := some channelClaimHash }
  let digest := ops.sha256 (firstInputHash ++ channelClaimHash ++
    ops.toMessageBytes claim1)
  let claim2 := { claim1 with signature := some (ops.signDigest digest) }
  { script := { source := ops.scriptGenerate claim2, claim := claim2 }
    channel := some channelClaimHash }

/-- `Output.clear_signature`: drops the channel link and clears the payload
— the script source is left untouched (no `script.generate()` call). -/
def Output.clear_signature (o : Output) : Output :=
  { o with channel := none
           script := { o.script with claim := o.script.claim.clear_signature } }

/-- Apply a transition to the output at index `i` of a list, leaving the
rest alone (each transition is a method of one `Output` object). -/
def applyAt (f : Output → Output) : List Output → Nat → List Output
  | [], _ => []
  | o :: rest, 0 => f o :: rest
  | o :: rest, k + 1 => o :: applyAt f rest k

end Signing

/-- Claim C8 (amended): `sign` mutates the embedded claim payload (channel
hash and signature) and regenerates that output's script bytes from the
updated payload; `clear_signature` mutates the payload back to the
unsigned state but does not regenerate the script bytes, which keep their
previous value; and neither transition alters the script bytes of any
other output. -/
theorem sign_clear_signature_spec (ops : Signing.ExtOps)
    (ch fi : List Nat) (o : Signing.Output) :
    ((o.sign ops ch fi).script.claim.signing_channel_hash = some ch ∧
        (o.sign ops ch fi).script.claim.signature =
          some (ops.signDigest (ops.sha256 (fi ++ ch ++
            ops.toMessageBytes { o.script.claim with
              signing_channel_hash := some ch }))) ∧
        (o.sign ops ch fi).script.source =
          ops.scriptGenerate (o.sign ops ch fi).script.claim) ∧
      (o.clear_signature.script.claim = o.script.claim.clear_signature ∧
        o.clear_signature.script.source = o.script.source) ∧
      (∀ (outs : List Signing.Output) (i j : Nat), i ≠ j →
        ((Signing.applyAt (Signing.Output.sign ops ch fi) outs i).map
            (fun x => x.script.source))[j]? =
          (outs.map (fun x => x.script.source))[j]? ∧
        ((Signing.applyAt Signing.Output.clear_signature outs i).map
            (fun x => x.script.source))[j]? =
          (outs.map (fun x => x.script.source))[j]?) := by
  refine ⟨⟨rfl, rfl, rfl⟩, ⟨rfl, rfl⟩, ?_⟩
  intro outs i j hij
  constructor
  · induction outs generalizing i j with
    | nil => rfl
    | cons o2 rest ih =>
      cases i with
      | zero =>
        cases j with
        | zero => exact absurd rfl hij
        | succ j => simp [Signing.applyAt]
      | succ i =>
        cases j with
        | zero => simp [Signing.applyAt]
        | succ j =>
          simp only [Signing.applyAt, List.map_cons, List.getElem?_cons_succ]
          exact ih i j (by omega)
  · induction outs generalizing i j with
    | nil => rfl
    | cons o2 rest ih =>
      cases i with
      | zero =>
        cases j with
        | zero => exact absurd rfl hij
        | succ j => simp [Signing.applyAt]
      | succ i =>
        cases j with
        | zero => simp [Signing.applyAt]
        | succ j =>
          simp only [Signing.applyAt, List.map_cons, List.getElem?_cons_succ]
          exact ih i j (by omega)

/-- Concrete external operations distinguishing signed from unsigned
payloads in the regenerated source. -/
def sampleOps : Signing.ExtOps :=
  { scriptGenerate := fun c => (if c.signature.isSome then [1] else [0]) ++ c.body
    toMessageBytes := fun c => c.body
    sha256 := fun b => b
    signDigest := fun b => b }

/-- A concrete unsigned output. -/
def unsignedOutput : Signing.Output :=
  { script := { source := [0, 42], claim :=
      { signing_channel_hash := none, signature := none, body := [42] } }
    channel := none }

/-- Claim C8 witness: the amended theorem instantiated at `sampleOps` and
`unsignedOutput`. -/
theorem sign_clear_signature_spec_witness :
    ((unsignedOutput.sign sampleOps [7] [9]).script.claim.signing_channel_hash
          = some [7] ∧
        (unsignedOutput.sign sampleOps [7] [9]).script.claim.signature =
          some (sampleOps.signDigest (sampleOps.sha256 ([9] ++ [7] ++
            sampleOps.toMessageBytes { unsignedOutput.script.claim with
              signing_channel_hash := some [7] }))) ∧
        (unsignedOutput.sign sampleOps [7] [9]).script.source =
          sampleOps.scriptGenerate
            (unsignedOutput.sign sampleOps [7] [9]).script.claim) ∧
      (unsignedOutput.clear_signature.script.claim =
          unsignedOutput.script.claim.clear_signature ∧
        unsignedOutput.clear_signature.script.source =
          unsignedOutput.script.source) ∧
      (∀ (outs : List Signing.Output) (i j : Nat), i ≠ j →
        ((Signing.applyAt (Signing.Output.sign sampleOps [7] [9]) outs i).map
            (fun x => x.script.source))[j]? =
          (outs.map (fun x => x.script.source))[j]? ∧
        ((Signing.applyAt Signing.Output.clear_signature outs i).map
            (fun x => x.script.source))[j]? =
          (outs.map (fun x => x.script.source))[j]?) :=
  sign_clear_signature_spec sampleOps [7] [9] unsignedOutput

/-- Claim C8 counterexample: starting from the reachable signed state
`(unsignedOutput.sign ...)`, `clear_signature` leaves the script source at
its old (signed) value instead of regenerating it from the cleared
payload, so the claim that every transition regenerates the script bytes
is false. -/
theorem clear_signature_does_not_regenerate_script :
    ((unsignedOutput.sign sampleOps [7] [9]).clear_signature).script.source ≠
      sampleOps.scriptGenerate
        ((unsignedOutput.sign sampleOps [7] [9]).clear_signature).script.claim := by
  decide

/-! ### Block-index query facade (claim C9)

Shallow embedding of `BlockchainDB.sync_get_block_files`
(`lbry/blockchain/database.py`): the `block_info` table is a list of rows
and the SQL is modelled by its standard semantics — `WHERE` filters,
`GROUP BY file` produces one row per distinct file value, `ORDER BY file
ASC` sorts the groups, `COUNT(hash)` counts the rows of a group (`hash` is
non-null), `SUM(txcount)` and `MAX(height)` aggregate over the group. -/

namespace Db

structure BlockInfoRow where
  file : Nat
  hash : Nat
  txcount : Nat
  height : Int
  status : Nat
  deriving DecidableEq, Repr

structure BlockFileRow where
  file_number : Nat
  blocks : Nat
  txs : Nat
  max_height : Int
  deriving DecidableEq, Repr

/-- The WHERE clause: `status&1 AND status&4`, plus `file = ? AND
height > ?` exactly when both optional arguments are given (SQL
truthiness: a nonzero integer).  -/
def blockFileCond (file_number : Option Nat) (above_height : Option Int)
    (r : BlockInfoRow) : Bool :=
  (r.status &&& 1 != 0) && (r.status &&& 4 != 0) &&
    (match file_number, above_height with
     | some f, some a => (r.file == f) && decide (a < r.height)
     | _, _ => true)

/-- `MAX(height)` over a (nonempty) group. -/
def maxOfHeights : List Int → Int
  | [] => 0
  | h :: t => t.foldl max h

/-- `sync_get_block_files(file_number=None, above_height=None)`. -/
def sync_get_block_files (rows : List BlockInfoRow) (file_number : Option Nat)
    (above_height : Option Int) : List BlockFileRow :=
  let filtered := rows.filter (blockFileCond file_number above_height)
  let files := ((filtered.map (fun r => r.file)).dedup).insertionSort (· ≤ ·)
  files.map fun f =>
    let grp := filtered.filter (fun r => r.file == f)
    { file_number := f
      blocks := grp.length
      txs := (grp.map (fun r => r.txcount)).sum
      max_height := maxOfHeights (grp.map (fun r => r.height)) }

theorem maxOfHeights_mem (l : List Int) (h : l ≠ []) : maxOfHeights l ∈ l := by
  match l with
  | [] => exact absurd rfl h
  | a :: t =>
    rw [maxOfHeights]
    clear h
    induction t generalizing a with
    | nil => simp
    | cons x t ih =>
      rw [List.foldl_cons]
      have hmem := ih (max a x)
      rcases List.mem_cons.mp hmem with h1 | h1
      · rcases max_choice a x with hm | hm
        · rw [h1, hm]
          simp
        · rw [h1, hm]
          simp
      · simp [h1]

theorem maxOfHeights_le (l : List Int) : ∀ x ∈ l, x ≤ maxOfHeights l := by
  match l with
  | [] => intro x hx; simp at hx
  | a :: t =>
    rw [maxOfHeights]
    induction t generalizing a with
    | nil =>
      intro x hx
      simp at hx
      simp [hx]
    | cons y t ih =>
      intro x hx
      rw [List.foldl_cons]
      rcases List.mem_cons.mp hx with h1 | h1
      · subst h1
        calc x ≤ max x y := le_max_left x y
          _ ≤ List.foldl max (max x y) t := ih (max x y) _ (by simp)
      · rcases List.mem_cons.mp h1 with h2 | h2
        · subst h2
          calc x ≤ max a x := le_max_right a x
            _ ≤ List.foldl max (max a x) t := ih (max a x) _ (by simp)
        · exact ih (max a y) x (by simp [h2])

end Db

theorem blockFileCond_testBit (file_number : Option Nat)
    (above_height : Option Int) (r : Db.BlockInfoRow) :
    Db.blockFileCond file_number above_height r =
      (r.status.testBit 0 && r.status.testBit 2 &&
        (match file_number, above_height with
         | some f, some a => (r.file == f) && decide (a < r.height)
         | _, _ => true)) := by
  have h1 : (r.status &&& 1 != 0) = r.status.testBit 0 := by
    rw [Nat.and_one_is_mod]
    rcases Nat.mod_two_eq_zero_or_one r.status with h | h <;>
      simp [Nat.testBit_zero, h]
  have h4 : (r.status &&& 4 != 0) = r.status.testBit 2 := by
    rw [show (4 : Nat) = 2 ^ 2 from rfl, Nat.and_two_pow]
    cases h : r.status.testBit 2 <;> simp [h]
  rcases file_number with _ | f <;> rcases above_height with _ | a <;>
    simp only [Db.blockFileCond, h1, h4]

/-- Claim C9: `sync_get_block_files` aggregates only rows whose status has
bits 0 and 2 set (restricted to `file = file_number ∧ height >
above_height` when both filters are given); it returns one row per
distinct block file, ordered by file number strictly ascending, and each
returned row carries `blocks` = the number of that file's rows, `txs` =
the sum of their `txcount`, and `max_height` = the maximum of their
heights. -/
theorem get_block_files_spec (rows : List Db.BlockInfoRow)
    (file_number : Option Nat) (above_height : Option Int) :
    ((Db.sync_get_block_files rows file_number above_height).map
        (fun g => g.file_number)).Pairwise (· < ·) ∧
      (∀ f, f ∈ (Db.sync_get_block_files rows file_number above_height).map
          (fun g => g.file_number) ↔
        ∃ r ∈ rows,
          (r.status.testBit 0 && r.status.testBit 2 &&
            (match file_number, above_height with
             | some fn, some a => (r.file == fn) && decide (a < r.height)
             | _, _ => true)) = true ∧ r.file = f) ∧
      (∀ g ∈ Db.sync_get_block_files rows file_number above_height,
        g.blocks = (rows.filter (fun r =>
            Db.blockFileCond file_number above_height r &&
              (r.file == g.file_number))).length ∧
          g.txs = ((rows.filter (fun r =>
            Db.blockFileCond file_number above_height r &&
              (r.file == g.file_number))).map (fun r => r.txcount)).sum ∧
          g.max_height ∈ (rows.filter (fun r =>
            Db.blockFileCond file_number above_height r &&
              (r.file == g.file_number))).map (fun r => r.height) ∧
          ∀ h ∈ (rows.filter (fun r =>
            Db.blockFileCond file_number above_height r &&
              (r.file == g.file_number))).map (fun r => r.height),
            h ≤ g.max_height) := by
  set filtered := rows.filter (Db.blockFileCond file_number above_height)
    with hfiltered
  set files := ((filtered.map (fun r => r.file)).dedup).insertionSort (· ≤ ·)
    with hfiles
  have hres : Db.sync_get_block_files rows file_number above_height =
      files.map (fun f =>
        { file_number := f
          blocks := (filtered.filter (fun r => r.file == f)).length
          txs := ((filtered.filter (fun r => r.file == f)).map
            (fun r => r.txcount)).sum
          max_height := Db.maxOfHeights ((filtered.filter
            (fun r => r.file == f)).map (fun r => r.height)) }) := rfl
  have hmapfiles : (Db.sync_get_block_files rows file_number above_height).map
      (fun g => g.file_number) = files := by
    rw [hres, List.map_map]
    exact List.map_id'' (fun _ => rfl) files
  have hgrp : ∀ f, filtered.filter (fun r => r.file == f) =
      rows.filter (fun r =>
        Db.blockFileCond file_number above_height r && (r.file == f)) := by
    intro f
    rw [hfiltered, List.filter_filter]
    apply List.filter_congr
    intro a _
    exact Bool.and_comm _ _
  refine ⟨?_, ?_, ?_⟩
  · rw [hmapfiles, hfiles]
    have hs := List.sorted_insertionSort (· ≤ ·)
      ((filtered.map (fun r => r.file)).dedup)
    have hn : ((filtered.map (fun r => r.file)).dedup).Nodup :=
      List.nodup_dedup _
    have hn2 := (List.perm_insertionSort (· ≤ ·)
      ((filtered.map (fun r => r.file)).dedup)).nodup_iff.mpr hn
    exact (hs.and hn2).imp (fun h => lt_of_le_of_ne h.1 h.2)
  · intro f
    rw [hmapfiles, hfiles]
    rw [(List.perm_insertionSort (· ≤ ·) _).mem_iff, List.mem_dedup]
    constructor
    · intro hmem
      rcases List.mem_map.mp hmem with ⟨r, hr, hrf⟩
      rcases List.mem_filter.mp hr with ⟨hrrows, hrcond⟩
      refine ⟨r, hrrows, ?_, hrf⟩
      rw [← blockFileCond_testBit]
      exact hrcond
    · intro ⟨r, hrrows, hrcond, hrf⟩
      apply List.mem_map.mpr
      refine ⟨r, List.mem_filter.mpr ⟨hrrows, ?_⟩, hrf⟩
      rw [blockFileCond_testBit]
      exact hrcond
  · intro g hg
    rw [hres] at hg
    rcases List.mem_map.mp hg with ⟨f, hf, hgf⟩
    have hne : filtered.filter (fun r => r.file == f) ≠ [] := by
      rw [hfiles, (List.perm_insertionSort (· ≤ ·) _).mem_iff,
        List.mem_dedup] at hf
      rcases List.mem_map.mp hf with ⟨r, hr, hrf⟩
      intro hnil
      have : r ∈ filtered.filter (fun r => r.file == f) :=
        List.mem_filter.mpr ⟨hr, by simp [hrf]⟩
      rw [hnil] at this
      simp at this
    subst hgf
    refine ⟨by rw [← hgrp], by rw [← hgrp], ?_, ?_⟩
    · rw [← hgrp]
      exact Db.maxOfHeights_mem _ (by
        intro hnil
        exact hne (by simpa using List.map_eq_nil_iff.mp hnil))
    · intro h hh
      rw [← hgrp] at hh
      exact Db.maxOfHeights_le _ h hh

/-- A concrete `block_info` table: two rows with status bits 0 and 2 both
set (5 and 7), one row missing bit 0 (4) and one missing bit 2 (1). -/
def sampleRows : List Db.BlockInfoRow :=
  [ { file := 1, hash := 100, txcount := 2, height := 10, status := 5 },
    { file := 0, hash := 101, txcount := 3, height := 20, status := 7 },
    { file := 1, hash := 102, txcount := 4, height := 30, status := 4 },
    { file := 2, hash := 103, txcount := 1, height := 40, status := 1 } ]

/-- Claim C9 witness: the aggregation theorem applied to `sampleRows`
without filters, together with the concrete results with and without both
filters given. -/
theorem get_block_files_spec_witness :
    (((Db.sync_get_block_files sampleRows none none).map
        (fun g => g.file_number)).Pairwise (· < ·) ∧
      (∀ f, f ∈ (Db.sync_get_block_files sampleRows none none).map
          (fun g => g.file_number) ↔
        ∃ r ∈ sampleRows,
          (r.status.testBit 0 && r.status.testBit 2 &&
            (match (none : Option Nat), (none : Option Int) with
             | some fn, some a => (r.file == fn) && decide (a < r.height)
             | _, _ => true)) = true ∧ r.file = f) ∧
      (∀ g ∈ Db.sync_get_block_files sampleRows none none,
        g.blocks = (sampleRows.filter (fun r =>
            Db.blockFileCond none none r && (r.file == g.file_number))).length ∧
          g.txs = ((sampleRows.filter (fun r =>
            Db.blockFileCond none none r &&
              (r.file == g.file_number))).map (fun r => r.txcount)).sum ∧
          g.max_height ∈ (sampleRows.filter (fun r =>
            Db.blockFileCond none none r &&
              (r.file == g.file_number))).map (fun r => r.height) ∧
          ∀ h ∈ (sampleRows.filter (fun r =>
            Db.blockFileCond none none r &&
              (r.file == g.file_number))).map (fun r => r.height),
            h ≤ g.max_height)) ∧
      Db.sync_get_block_files sampleRows none none =
        [{ file_number := 0, blocks := 1, txs := 3, max_height := 20 },
         { file_number := 1, blocks := 1, txs := 2, max_height := 10 }] ∧
      Db.sync_get_block_files sampleRows (some 1) (some 5) =
        [{ file_number := 1, blocks := 1, txs := 2, max_height := 10 }] :=
  ⟨get_block_files_spec sampleRows none none, by decide, by decide⟩

end Lbry
